import Mathlib

/-!
# Verification of `bing_image_downloader`

A shallow embedding, in Lean 4, of the two source files
`bing_image_downloader/bing.py` and `bing_image_downloader/downloader.py`,
together with theorems settling the specification claims about them.

Modelling conventions:
* Python strings are Lean `String`s; byte strings (HTTP bodies) are `List Nat`
  with each element a byte value.
* The cooperative `asyncio` scheduling of `Bing.run` is made explicit:
  creating a coroutine runs none of its body; `asyncio.gather` first runs every
  task synchronously up to its first `await` (so every task's optimistic
  counter increment and filename computation happen, in list order, before any
  network response is observed), and then the responses settle.  Settlement
  order cannot affect the observable state modelled here (each task of a burst
  owns a distinct filename), so settlements are processed in list order.
* Network and filesystem effects are recorded in an explicit effect list.
* A run's world is a list of successive search-page fetch results (a fetch
  past the end of the list returns an empty body, i.e. the endpoint is
  exhausted) plus a function giving each image URL's HTTP result.
-/

/-! ## Generic string helpers (embedding `str` operations used by the source) -/

/-- Decimal digit characters of a natural number, most significant first,
with explicit fuel (`fuel > n` is always sufficient).  This is the rendering
Python's `str`/f-strings use for a nonnegative `int`. -/
def natDecCore : Nat → Nat → List Char
  | 0, _ => []
  | fuel + 1, n =>
    if n = 0 then []
    else natDecCore fuel (n / 10) ++ [Char.ofNat (48 + n % 10)]

/-- Decimal digit characters of `n` (Python `str(n)` for `n : Nat`). -/
def natDecimalChars (n : Nat) : List Char :=
  if n = 0 then ['0'] else natDecCore (n + 1) n

/-- Python `str(n)` as a Lean string. -/
def natDecimalStr (n : Nat) : String :=
  String.mk (natDecimalChars n)

/-- Read back a decimal digit list (left inverse of `natDecimalChars`). -/
def parseDecimal (l : List Char) : Nat :=
  l.foldl (fun a c => a * 10 + (c.toNat - 48)) 0

/-- Python `str.lower` on one character (ASCII; query strings and extensions
handled by the source are ASCII). -/
def pyLowerChar (c : Char) : Char :=
  if 65 ≤ c.toNat ∧ c.toNat ≤ 90 then Char.ofNat (c.toNat + 32) else c

/-- Python `str.lower`. -/
def pyLower (s : String) : String :=
  String.mk (s.data.map pyLowerChar)

/-! ## `urllib.parse.urlsplit(link).path` and `posixpath.basename`

Embedding of the pieces of `urllib.parse.urlsplit` that determine the `path`
component of a URL: the fragment is split off at the first `#`, a valid
`scheme:` prefix is removed, a `//netloc` part is removed, and the query is
split off at the first `?`. -/

/-- Characters allowed in a URL scheme after the leading letter. -/
def schemeChar (c : Char) : Bool :=
  c.isAlpha || c.isDigit || c == '+' || c == '-' || c == '.'

/-- Drop a leading `scheme:` when present and well formed. -/
def splitScheme (l : List Char) : List Char :=
  let pre := l.takeWhile (fun c => c ≠ ':')
  if pre.length < l.length ∧ pre ≠ [] ∧ pre.headI.isAlpha ∧ pre.all schemeChar then
    l.drop (pre.length + 1)
  else l

/-- Drop a leading `//netloc` when present: the netloc extends to the next
`/`, `?` or `#`. -/
def splitNetloc (l : List Char) : List Char :=
  if ['/', '/'].isPrefixOf l then
    (l.drop 2).dropWhile (fun c => c ≠ '/' && c ≠ '?' && c ≠ '#')
  else l

/-- `urllib.parse.urlsplit(link).path` (bing.py line 89). -/
def urlsplitPath (link : String) : String :=
  String.mk (((splitNetloc (splitScheme (link.data.takeWhile (fun c => c ≠ '#'))))).takeWhile
    (fun c => c ≠ '?'))

/-- `posixpath.basename`: everything after the last `/`. -/
def posixBasename (p : String) : String :=
  String.mk ((p.data.reverse.takeWhile (fun c => c ≠ '/')).reverse)

/-! ## `Bing` static pieces: extension derivation and filter table -/

/-- The recognised image extension set (bing.py lines 92-103). -/
def knownExts : List String :=
  ["jpe", "jpeg", "jfif", "exif", "tiff", "gif", "bmp", "png", "webp", "jpg"]

/-- Extension derivation of `Bing.download_image` (bing.py lines 89-104):
`filename = posixpath.basename(urlsplit(link).path).split("?")[0]`,
`file_type = filename.split(".")[-1]`, replaced by `"jpg"` when its
lowercasing is not a known image extension. -/
def Bing.file_type (link : String) : String :=
  let path := urlsplitPath link
  let filename := String.mk ((posixBasename path).data.takeWhile (fun c => c ≠ '?'))
  let t := String.mk ((filename.data.reverse.takeWhile (fun c => c ≠ '.')).reverse)
  if knownExts.contains (pyLower t) then t else "jpg"

/-- The URL path's final suffix, as the specification describes it: the
portion of the query-stripped basename of the URL's path after the last dot.
Stated from the spec's words, for comparison with `Bing.file_type`. -/
def specPathSuffix (link : String) : String :=
  let base := posixBasename (urlsplitPath link)
  let base := String.mk (base.data.takeWhile (fun c => c ≠ '?'))
  String.mk ((base.data.reverse.takeWhile (fun c => c ≠ '.')).reverse)

/-- `Bing.get_filter` (bing.py lines 69-83). -/
def Bing.get_filter (shorthand : String) : String :=
  if shorthand = "line" ∨ shorthand = "linedrawing" then "+filterui:photo-linedrawing"
  else if shorthand = "photo" then "+filterui:photo-photo"
  else if shorthand = "clipart" then "+filterui:photo-clipart"
  else if shorthand = "gif" ∨ shorthand = "animatedgif" then "+filterui:photo-animatedgif"
  else if shorthand = "transparent" then "+filterui:photo-transparent"
  else ""

/-! ## `urllib.parse.quote_plus`

Python percent-encodes the UTF-8 bytes of the string, keeps unreserved bytes
(`A-Z a-z 0-9 _ . - ~`) verbatim, and maps a space to `+`. -/

/-- UTF-8 encoding of one character, as byte values. -/
def utf8Encode (c : Char) : List Nat :=
  let n := c.toNat
  if n < 128 then [n]
  else if n < 2048 then [192 + n / 64, 128 + n % 64]
  else if n < 65536 then [224 + n / 4096, 128 + (n / 64) % 64, 128 + n % 64]
  else [240 + n / 262144, 128 + (n / 4096) % 64, 128 + (n / 64) % 64, 128 + n % 64]

/-- Bytes `quote_plus` keeps verbatim. -/
def alwaysSafeByte (b : Nat) : Bool :=
  (65 ≤ b && b ≤ 90) || (97 ≤ b && b ≤ 122) || (48 ≤ b && b ≤ 57) ||
  b == 95 || b == 46 || b == 45 || b == 126

/-- Uppercase hexadecimal digit. -/
def hexDigitChar (n : Nat) : Char :=
  if n < 10 then Char.ofNat (48 + n) else Char.ofNat (55 + n)

/-- `quote_plus` treatment of one byte. -/
def quoteByte (b : Nat) : List Char :=
  if alwaysSafeByte b then [Char.ofNat b]
  else if b == 32 then ['+']
  else ['%', hexDigitChar (b / 16), hexDigitChar (b % 16)]

/-- `urllib.parse.quote_plus` (bing.py line 137). -/
def quote_plus (s : String) : String :=
  String.mk (((s.data.map utf8Encode).flatten.map quoteByte).flatten)

/-! ## `imghdr.what`

The CPython `imghdr` signature tests, in registration order; the source only
uses whether any test recognises the body (bing.py line 111). -/

/-- Bytes of an HTTP body. -/
abbrev Bytes := List Nat

/-- The `pbm`/`pgm`/`ppm` test shape: `P`, a digit from `ds`, whitespace. -/
def pnmTest (h : Bytes) (ds : List Nat) : Bool :=
  match h with
  | p :: d :: w :: _ => p == 80 && ds.contains d && [32, 9, 10, 13].contains w
  | _ => false

/-- `imghdr.what(None, h)`: first matching signature test, else `none`. -/
def imghdr_what (h : Bytes) : Option String :=
  if (h.drop 6).take 4 == [74, 70, 73, 70] || (h.drop 6).take 4 == [69, 120, 105, 102] then
    some "jpeg"
  else if [137, 80, 78, 71, 13, 10, 26, 10].isPrefixOf h then some "png"
  else if h.take 6 == [71, 73, 70, 56, 55, 97] || h.take 6 == [71, 73, 70, 56, 57, 97] then
    some "gif"
  else if h.take 2 == [77, 77] || h.take 2 == [73, 73] then some "tiff"
  else if [1, 218].isPrefixOf h then some "rgb"
  else if pnmTest h [49, 52] then some "pbm"
  else if pnmTest h [50, 53] then some "pgm"
  else if pnmTest h [51, 54] then some "ppm"
  else if [89, 166, 106, 149].isPrefixOf h then some "rast"
  else if [35, 100, 101, 102, 105, 110, 101, 32].isPrefixOf h then some "xbm"
  else if [66, 77].isPrefixOf h then some "bmp"
  else if [82, 73, 70, 70].isPrefixOf h && (h.drop 8).take 4 == [87, 69, 66, 80] then
    some "webp"
  else if [118, 47, 49, 1].isPrefixOf h then some "exr"
  else none

/-! ## Effects, world, and session state -/

/-- Observable side effects of a run, in order of occurrence. -/
inductive Eff
  | print (msg : String)
  | fetchPage (url : String)
  | imageGet (url : String)
  | writeFile (name : String)
  | mkdirs (dir : String)
  | rmtree (dir : String)
  | sysExit (code : Nat)
  deriving Repr, DecidableEq

/-- Result of one search-page fetch: either the response body text, or a
transport/timeout exception raised by `fetch_page` (bing.py lines 123-126). -/
inductive FetchResult
  | page (html : String)
  | failure
  deriving Repr, DecidableEq

/-- Result of one image GET: a 200 response with a body, a non-200 status, or
a transport error / timeout (which raises inside the `try`). -/
inductive HttpResult
  | ok (body : Bytes)
  | status (code : Nat)
  | netError
  deriving Repr, DecidableEq

/-- A file written to the output directory. -/
structure FileRec where
  num : Nat
  ext : String
  bytes : Bytes
  deriving Repr, DecidableEq

/-- Rendering of the f-string `f"Image_{self.download_count}.{file_type}"`
(bing.py line 106). -/
def imageName (num : Nat) (ext : String) : String :=
  String.mk ("Image_".data ++ natDecimalChars num ++ '.' :: ext.data)

/-- The file's name on disk. -/
def FileRec.name (f : FileRec) : String :=
  imageName f.num f.ext

/-- Reading a name from a written-files list: the last write wins (an
`open(..., "wb")` overwrites silently). -/
def lookupFile (fs : List FileRec) (name : String) : Option Bytes :=
  ((fs.filter (fun f => f.name == name)).getLast?).map FileRec.bytes

/-- The mutable state of a `Bing` instance plus the effects it has produced.
Fields mirror `Bing.__init__` (bing.py lines 45-67); `attempted` records the
links passed to `download_image`, `files` the files written, `summary` the
count reported by the final `Done. Downloaded .. images.` print. -/
structure BingState where
  query : String
  limit : Nat
  output_dir : String
  adult : String
  filter : Option String
  verbose : Bool
  timeout : Nat
  download_count : Nat
  page_counter : Nat
  seen : List String
  attempted : List String
  files : List FileRec
  effs : List Eff
  summary : Option Nat
  deriving Repr

/-- Append one effect. -/
def pushEff (st : BingState) (e : Eff) : BingState :=
  { st with effs := st.effs ++ [e] }

/-- A Python value, as far as truthiness is concerned: `downloader.download`
passes a *string* where `Bing.__init__` expects the boolean
`allow_adult_content`, so the embedding keeps the dynamic type. -/
inductive PyVal
  | bool (b : Bool)
  | str (s : String)
  deriving Repr, DecidableEq

/-- Python truthiness: a string is truthy iff nonempty. -/
def PyVal.truthy : PyVal → Bool
  | .bool b => b
  | .str s => s ≠ ""

/-- `Bing.__init__` (bing.py lines 15-67): sets the counters and the seen set,
computes `adult = "on" if allow_adult_content else "off"` by truthiness, and
calls `os.makedirs(output_dir, exist_ok=True)`. -/
def Bing.init (query : String) (limit : Nat) (output_dir : String)
    (allow_adult_content : PyVal) (timeout : Nat) (filter : Option String)
    (verbose : Bool) : BingState :=
  { query := query
    limit := limit
    output_dir := output_dir
    adult := if allow_adult_content.truthy then "on" else "off"
    filter := filter
    verbose := verbose
    timeout := timeout
    download_count := 0
    page_counter := 0
    seen := []
    attempted := []
    files := []
    effs := [.mkdirs output_dir]
    summary := none }

/-! ## `re.findall(r"murl&quot;:&quot;(.*?)&quot;", html)` (bing.py line 153)

Left-to-right non-overlapping scan: at each position where the literal prefix
`murl&quot;:&quot;` matches, the lazy group captures the shortest run of
non-newline characters followed by the literal `&quot;`; if no such close
exists the engine moves one character right and retries. -/

/-- The literal prefix `murl&quot;:&quot;` (17 characters). -/
def murlPrefix : List Char :=
  "murl&quot;:&quot;".data

/-- Capture up to the first `&quot;`, failing on a newline (the `.` of the
pattern does not match a newline): returns the captured characters and the
suffix after the closing `&quot;`. -/
def captureToQuot : List Char → Option (List Char × List Char)
  | [] => none
  | c :: cs =>
    if "&quot;".data.isPrefixOf (c :: cs) then some ([], (c :: cs).drop 6)
    else if c = '\n' then none
    else
      match captureToQuot cs with
      | some (cap, rest) => some (c :: cap, rest)
      | none => none

/-- The scan, with fuel; every step consumes at least one character, so fuel
equal to the input length is always sufficient. -/
def extractLinksCore : Nat → List Char → List String
  | 0, _ => []
  | fuel + 1, l =>
    match l with
    | [] => []
    | _ :: cs =>
      if murlPrefix.isPrefixOf l then
        match captureToQuot (l.drop 17) with
        | some (cap, rest) => String.mk cap :: extractLinksCore fuel rest
        | none => extractLinksCore fuel cs
      else extractLinksCore fuel cs

/-- All image URLs extracted from one page of markup. -/
def extractLinks (html : String) : List String :=
  extractLinksCore html.data.length html.data

/-! ## One concurrent download burst (`download_image` + `asyncio.gather`) -/

/-- One launched download task: its link and the counter value it read after
its own optimistic increment (bing.py line 87), which names its file. -/
structure DTask where
  link : String
  num : Nat
  deriving Repr, DecidableEq

/-- The synchronous prefixes of the gathered tasks run in list order: each
increments the shared counter and records the post-increment value. -/
def assignTasks : Nat → List String → List DTask
  | _, [] => []
  | c, l :: ls => ⟨l, c + 1⟩ :: assignTasks (c + 1) ls

/-- Does the attempt with this HTTP result fail?  (Non-200 status and
transport errors raise; a 200 body failing the `imghdr` sniff raises
`ValueError`; all are caught by the `except` at bing.py line 119.) -/
def attemptFails (r : HttpResult) : Bool :=
  match r with
  | .ok body => (imghdr_what body).isNone
  | .status _ => true
  | .netError => true

/-- The exception text interpolated into the failure log. -/
def errText (link : String) (r : HttpResult) : String :=
  match r with
  | .ok _ => "Invalid image, not saving " ++ link ++ "\n"
  | .status _ => "Failed to download image: " ++ link
  | .netError => "<network error>"

/-- The `except` branch's log line (bing.py line 121). -/
def issueMsg (link e : String) : String :=
  "[!] Issue getting: " ++ link ++ "\n[!] Error:: " ++ e

/-- Settlement of one task once its response arrives (bing.py lines 108-121):
on a valid 200 body the bytes are written to the precomputed filename; on any
failure the counter is decremented back, the failure is logged, no file is
written, and no exception escapes. -/
def settle (net : String → HttpResult) (st : BingState) (t : DTask) : BingState :=
  let st := pushEff st (.imageGet t.link)
  match net t.link with
  | .ok body =>
    if (imghdr_what body).isSome then
      { st with
        files := st.files ++ [⟨t.num, Bing.file_type t.link, body⟩]
        effs := st.effs ++ [.writeFile (imageName t.num (Bing.file_type t.link))] }
    else
      { st with
        download_count := st.download_count - 1
        effs := st.effs ++
          [.print ("[Error] Invalid image, not saving " ++ t.link ++ "\n"),
           .print (issueMsg t.link (errText t.link (.ok body)))] }
  | .status c =>
    { st with
      download_count := st.download_count - 1
      effs := st.effs ++ [.print (issueMsg t.link (errText t.link (.status c)))] }
  | .netError =>
    { st with
      download_count := st.download_count - 1
      effs := st.effs ++ [.print (issueMsg t.link (errText t.link .netError))] }

/-- Settle every task of the burst (the `asyncio.gather` barrier: the loop
resumes only after all of them finished). -/
def settleAll (net : String → HttpResult) : List DTask → BingState → BingState
  | [], st => st
  | t :: ts, st => settleAll net ts (settle net st t)

/-- One page's concurrent burst: every eligible link is launched; all the
optimistic increments and filename assignments happen before any settlement. -/
def processBurst (net : String → HttpResult) (eligible : List String)
    (st : BingState) : BingState :=
  let tasks := assignTasks st.download_count eligible
  settleAll net tasks
    { st with
      download_count := st.download_count + eligible.length
      attempted := st.attempted ++ eligible }

/-! ## The orchestration loop `Bing.run` (bing.py lines 128-169) -/

/-- The search request URL built at bing.py lines 135-146. -/
def buildRequestURL (query : String) (first count : Nat) (adult : String)
    (filter : Option String) : String :=
  "https://www.bing.com/images/async?q=" ++ quote_plus query ++
  "&first=" ++ natDecimalStr first ++
  "&count=" ++ natDecimalStr count ++
  "&adlt=" ++ adult ++
  "&qft=" ++ (match filter with | none => "" | some f => Bing.get_filter f)

/-- The verbose page-indexing banner (bing.py line 133). -/
def indexingMsg (pc : Nat) : String :=
  "\n\n[!!] Indexing page: " ++ natDecimalStr (pc + 1) ++ "\n"

/-- The verbose per-page count message (bing.py line 156). -/
def indexedMsg (n pc : Nat) : String :=
  "[%] Indexed " ++ natDecimalStr n ++ " Images on Page " ++
  natDecimalStr (pc + 1) ++ "."

/-- The verbose separator (bing.py line 158). -/
def sepMsg : String :=
  "\n===============================================\n"

/-- The final summary line (bing.py line 169). -/
def doneMsg (n : Nat) : String :=
  "\n\n[%] Done. Downloaded " ++ natDecimalStr n ++ " images."

/-- The prints and the page GET issued before a page's body is examined. -/
def prePage (st : BingState) : BingState :=
  let st := if st.verbose then pushEff st (.print (indexingMsg st.page_counter)) else st
  pushEff st (.fetchPage (buildRequestURL st.query st.page_counter st.limit st.adult st.filter))

/-- The task comprehension's filter (bing.py lines 160-164): a link is
launched when the counter is still under the limit and the link is unseen.
Because `download_image` is an `async def`, building the comprehension runs
none of its bodies, so `count` here is the pre-burst counter value for every
link of the page. -/
def eligibleLinks (links : List String) (count limit : Nat)
    (seen : List String) : List String :=
  links.filter (fun l => decide (count < limit ∧ l ∉ seen))

/-- The body of one loop iteration on a nonempty page (bing.py lines 153-166):
extract the links, print the verbose countings, build the burst from the
eligible links, add *all* extracted links to the seen set, and run the burst. -/
def stepPage (net : String → HttpResult) (html : String) (st : BingState) : BingState :=
  let links := extractLinks html
  let st := if st.verbose then
      pushEff (pushEff st (.print (indexedMsg links.length st.page_counter)))
        (.print sepMsg)
    else st
  let eligible := eligibleLinks links st.download_count st.limit st.seen
  let st := { st with seen := st.seen ++ links }
  processBurst net eligible st

/-- The `while self.download_count < self.limit` loop.  The returned flag is
`true` when a page-fetch exception escaped the loop.  A fetch past the end of
`pages` returns an empty body (the endpoint is exhausted). -/
def Bing.runLoop (net : String → HttpResult) : List FetchResult → BingState → BingState × Bool
  | [], st =>
    if st.download_count < st.limit then
      (pushEff (prePage st) (.print "[%] No more images are available"), false)
    else (st, false)
  | fr :: rest, st =>
    if st.download_count < st.limit then
      let st := prePage st
      match fr with
      | .failure => (st, true)
      | .page html =>
        if html = "" then
          (pushEff st (.print "[%] No more images are available"), false)
        else
          let st := stepPage net html st
          Bing.runLoop net rest { st with page_counter := st.page_counter + 1 }
    else (st, false)

/-- `Bing.run`: the loop followed by the summary print; a fetch exception
propagates out (flag `true`) and then nothing more is printed. -/
def Bing.run (net : String → HttpResult) (pages : List FetchResult)
    (st : BingState) : BingState × Bool :=
  match Bing.runLoop net pages st with
  | (st, true) => (st, true)
  | (st, false) =>
    ({ pushEff st (.print (doneMsg st.download_count)) with
        summary := some st.download_count }, false)

/-! ## `downloader.download` (downloader.py lines 8-42) -/

/-- A Python coroutine object: produced by *calling* an `async def` function;
its body runs only if the coroutine is awaited or scheduled. -/
structure Coroutine (α : Type) where
  body : α

/-- `downloader.download`.  `dirExists` says whether the output directory
already exists, `mkdirOk` whether creating it succeeds.  The function converts
`adult_filter_off` to the *string* `"off"`/`"on"` and passes it positionally
into `Bing`'s `allow_adult_content` slot, and at line 42 evaluates `bing.run()`
— which only creates a coroutine — without awaiting it, so the returned effect
list contains nothing from the orchestration loop. -/
def downloader.download (query : String) (limit : Nat) (output_dir : String)
    (adult_filter_off force_replace : Bool) (timeout : Nat) (filter : String)
    (verbose : Bool) (dirExists mkdirOk : Bool) (net : String → HttpResult)
    (pages : List FetchResult) : List Eff × Option (Coroutine (BingState × Bool)) :=
  let adult : String := if adult_filter_off then "off" else "on"
  let image_dir := output_dir ++ "/" ++ query
  let e1 : List Eff := if force_replace && dirExists then [.rmtree image_dir] else []
  let existsNow := dirExists && !force_replace
  let st := Bing.init query limit image_dir (.str adult) timeout (some filter) verbose
  let coro : Coroutine (BingState × Bool) := ⟨Bing.run net pages st⟩
  let mkEffs : List Eff := if existsNow then [] else [.mkdirs image_dir]
  if existsNow || mkdirOk then
    (e1 ++ mkEffs ++ [.print ("[%] Downloading Images to " ++ image_dir)] ++ st.effs,
     some coro)
  else
    (e1 ++ [.print "[Error]Failed to create directory.", .sysExit 1], none)

/-! ## Concrete worlds used by the claim theorems -/

/-- A minimal valid PNG signature body. -/
def png8 : Bytes := [137, 80, 78, 71, 13, 10, 26, 10]

/-- One search-result markup item around a link. -/
def mkMurl (l : String) : String := "murl&quot;:&quot;" ++ l ++ "&quot;"

/-- A single-page markup carrying 7 distinct valid-image URLs. -/
def html7 : String :=
  mkMurl "http://x/i1.png" ++ mkMurl "http://x/i2.png" ++ mkMurl "http://x/i3.png" ++
  mkMurl "http://x/i4.png" ++ mkMurl "http://x/i5.png" ++ mkMurl "http://x/i6.png" ++
  mkMurl "http://x/i7.png"

/-- A network where every image GET succeeds with a valid PNG body. -/
def netOk : String → HttpResult := fun _ => HttpResult.ok png8

set_option maxRecDepth 10000 in
/-- C1: the claim "with limit=5 and a single page yielding 7 distinct
valid-image URLs, exactly 5 files Image_1..Image_5 are saved, download
attempts beyond the 5th eligible candidate are never launched, and the run
reports a count of 5" fails on the code: the quota test of the task
comprehension (bing.py line 163) reads `download_count` before any of the
burst's coroutines has run, so all 7 candidates are launched, 7 files
Image_1..Image_7 are written, and the run reports downloading 7 images —
above the requested limit of 5. -/
theorem c1_limit5_page7_downloads_seven :
    (Bing.run netOk [FetchResult.page html7]
        (Bing.init "dog" 5 "dir" (PyVal.bool false) 60 none true)).2 = false
    ∧ (Bing.run netOk [FetchResult.page html7]
        (Bing.init "dog" 5 "dir" (PyVal.bool false) 60 none true)).1.attempted.length = 7
    ∧ (Bing.run netOk [FetchResult.page html7]
        (Bing.init "dog" 5 "dir" (PyVal.bool false) 60 none true)).1.files.map FileRec.name =
      ["Image_1.png", "Image_2.png", "Image_3.png", "Image_4.png",
       "Image_5.png", "Image_6.png", "Image_7.png"]
    ∧ (Bing.run netOk [FetchResult.page html7]
        (Bing.init "dog" 5 "dir" (PyVal.bool false) 60 none true)).1.download_count = 7
    ∧ (Bing.run netOk [FetchResult.page html7]
        (Bing.init "dog" 5 "dir" (PyVal.bool false) 60 none true)).1.summary = some 7 := by
  refine ⟨rfl, rfl, rfl, rfl, rfl⟩

/-- C4, counterexample: the claim's instance "a URL path ending in `.PNG?x=1`
is saved with extension `png`" is false: the code replaces the suffix only
when its lowercasing is *not* in the known set, and never lowercases a kept
suffix, so the derived extension is `PNG`, not `png`. -/
theorem c4_png_suffix_keeps_case :
    Bing.file_type "https://example.com/images/pic.PNG?x=1" = "PNG"
    ∧ Bing.file_type "https://example.com/images/pic.PNG?x=1" ≠ "png" := by
  refine ⟨rfl, by decide⟩

/-- C4, amended: the saved extension is the URL path's final suffix *verbatim
(case preserved)* when that suffix, compared case-insensitively, is in the
known extension set, and `jpg` otherwise; in particular `....PNG?x=1` yields
`PNG`, `.unknownext` yields `jpg`, and a path with no extension segment
yields `jpg`. -/
theorem c4_extension_derivation (link : String) :
    Bing.file_type link =
      (if knownExts.contains (pyLower (specPathSuffix link)) then specPathSuffix link
       else "jpg")
    ∧ Bing.file_type "https://example.com/images/pic.PNG?x=1" = "PNG"
    ∧ Bing.file_type "https://example.com/images/pic.unknownext" = "jpg"
    ∧ Bing.file_type "https://example.com/images/picture" = "jpg" := by
  refine ⟨rfl, rfl, rfl, rfl⟩

/-- C8: the request URL is a deterministic function of its inputs, carrying
the percent-encoded query, `first` equal to the raw page index, `count` equal
to the limit, `adlt` equal to the session's adult string (always `"on"` or
`"off"`), and `qft` given by the fixed shorthand table, empty for an
unrecognised or empty shorthand (and when `filter is None`). -/
theorem c8_buildRequestURL (q : String) (p L : Nat) (a sh s : String)
    (hs : s ∉ ["line", "linedrawing", "photo", "clipart", "gif", "animatedgif",
      "transparent"]) :
    buildRequestURL q p L a (some sh) =
      "https://www.bing.com/images/async?q=" ++ quote_plus q ++
        "&first=" ++ natDecimalStr p ++ "&count=" ++ natDecimalStr L ++
        "&adlt=" ++ a ++ "&qft=" ++ Bing.get_filter sh
    ∧ buildRequestURL q p L a none =
      "https://www.bing.com/images/async?q=" ++ quote_plus q ++
        "&first=" ++ natDecimalStr p ++ "&count=" ++ natDecimalStr L ++
        "&adlt=" ++ a ++ "&qft="
    ∧ Bing.get_filter "line" = "+filterui:photo-linedrawing"
    ∧ Bing.get_filter "linedrawing" = "+filterui:photo-linedrawing"
    ∧ Bing.get_filter "photo" = "+filterui:photo-photo"
    ∧ Bing.get_filter "clipart" = "+filterui:photo-clipart"
    ∧ Bing.get_filter "gif" = "+filterui:photo-animatedgif"
    ∧ Bing.get_filter "animatedgif" = "+filterui:photo-animatedgif"
    ∧ Bing.get_filter "transparent" = "+filterui:photo-transparent"
    ∧ Bing.get_filter "" = ""
    ∧ Bing.get_filter s = ""
    ∧ (∀ v : PyVal, (Bing.init q L "d" v 60 none true).adult = "on" ∨
        (Bing.init q L "d" v 60 none true).adult = "off") := by
  simp only [List.mem_cons, List.not_mem_nil, or_false, not_or] at hs
  obtain ⟨h1, h2, h3, h4, h5, h6, h7⟩ := hs
  refine ⟨rfl, by simp [buildRequestURL], rfl, rfl, rfl, rfl, rfl, rfl, rfl, rfl, ?_, ?_⟩
  · unfold Bing.get_filter
    rw [if_neg (by simp [h1, h2]), if_neg h3, if_neg h4, if_neg (by simp [h5, h6]),
      if_neg h7]
  · intro v
    unfold Bing.init
    cases hv : v.truthy <;> simp [hv]

/-- C8 witness: the theorem applied at the concrete input `q = "a b"`,
`p = 2`, `L = 10`, `a = "off"`, `sh = "photo"`, `s = "watercolor"`. -/
theorem c8_buildRequestURL_witness :
    buildRequestURL "a b" 2 10 "off" (some "photo") =
      "https://www.bing.com/images/async?q=" ++ quote_plus "a b" ++
        "&first=" ++ natDecimalStr 2 ++ "&count=" ++ natDecimalStr 10 ++
        "&adlt=" ++ "off" ++ "&qft=" ++ Bing.get_filter "photo" :=
  (c8_buildRequestURL "a b" 2 10 "off" "photo" "watercolor" (by decide)).1

/-! ## C2: `downloader.download` never runs the orchestration loop -/

/-- Is an effect a search-page fetch? -/
def Eff.isFetchPage : Eff → Bool
  | .fetchPage _ => true
  | _ => false

/-- Is an effect an image-file write? -/
def Eff.isWriteFile : Eff → Bool
  | .writeFile _ => true
  | _ => false

/-- Is an effect the final `Done. Downloaded .. images.` summary print? -/
def Eff.isSummaryPrint : Eff → Bool
  | .print m => "\n\n[%] Done. Downloaded ".data.isPrefixOf m.data
  | _ => false

/-- C2: whenever the output directory can be created, `downloader.download`
returns having fetched no search page, written no image file and printed no
final summary: line 42 evaluates `bing.run()`, which merely creates the
coroutine of the `async def` method, and never awaits or schedules it.  The
returned coroutine's body is exactly the orchestration `Bing.run` would have
performed — none of it is among the performed effects. -/
theorem c2_download_never_runs_loop (q : String) (L : Nat) (od : String)
    (afo fr : Bool) (t : Nat) (f : String) (v de : Bool)
    (net : String → HttpResult) (pages : List FetchResult) :
    ((downloader.download q L od afo fr t f v de true net pages).1.all
        (fun e => !e.isFetchPage && !e.isWriteFile && !e.isSummaryPrint)) = true
    ∧ (downloader.download q L od afo fr t f v de true net pages).2 =
      some ⟨Bing.run net pages
        (Bing.init q L (od ++ "/" ++ q) (.str (if afo then "off" else "on")) t
          (some f) v)⟩ := by
  cases de <;> cases fr <;> exact ⟨rfl, rfl⟩

/-- C6: at any loop state still under quota, a page fetch returning an empty
body ends the run normally — the `no more images` line is printed, the page
counter is not incremented, the summary is still reported — while a page
fetch that raises propagates out of `run` uncaught (no summary); the two exits
are distinct. -/
theorem c6_empty_page_vs_fetch_failure (net : String → HttpResult)
    (rest : List FetchResult) (st : BingState)
    (h : st.download_count < st.limit) :
    (Bing.run net (FetchResult.page "" :: rest) st).2 = false
    ∧ (Bing.run net (FetchResult.page "" :: rest) st).1.page_counter = st.page_counter
    ∧ Eff.print "[%] No more images are available" ∈
        (Bing.run net (FetchResult.page "" :: rest) st).1.effs
    ∧ (Bing.run net (FetchResult.page "" :: rest) st).1.summary =
        some st.download_count
    ∧ (Bing.run net (FetchResult.failure :: rest) st).2 = true
    ∧ (Bing.run net (FetchResult.failure :: rest) st).1.summary = st.summary
    ∧ (Bing.run net (FetchResult.failure :: rest) st).1.page_counter = st.page_counter := by
  cases hv : st.verbose <;>
    simp [Bing.run, Bing.runLoop, if_pos h, prePage, pushEff, hv]

/-- C6 witness: the theorem at a concrete under-quota state. -/
theorem c6_empty_page_vs_fetch_failure_witness :
    (Bing.run netOk [FetchResult.page ""]
        (Bing.init "dog" 5 "dir" (PyVal.bool false) 60 none true)).2 = false := by
  have h := c6_empty_page_vs_fetch_failure netOk []
    (Bing.init "dog" 5 "dir" (PyVal.bool false) 60 none true) (by decide)
  exact h.1

/-- If no page fetch raises, the loop never aborts: per-image failures are
caught inside `download_image` and never unwind the loop. -/
theorem runLoop_no_failure_no_abort (net : String → HttpResult) :
    ∀ (pages : List FetchResult) (st : BingState),
      (∀ fr ∈ pages, fr ≠ FetchResult.failure) →
      (Bing.runLoop net pages st).2 = false := by
  intro pages
  induction pages with
  | nil =>
    intro st _
    simp only [Bing.runLoop]
    split <;> rfl
  | cons fr rest ih =>
    intro st hp
    have hfr : fr ≠ FetchResult.failure := hp fr (List.mem_cons_self _ _)
    cases fr with
    | failure => exact absurd rfl hfr
    | page html =>
      simp only [Bing.runLoop]
      split
      · split
        · rfl
        · exact ih _ (fun fr h => hp fr (List.mem_cons_of_mem _ h))
      · rfl

/-- Lifting of `runLoop_no_failure_no_abort` to `Bing.run`. -/
theorem run_no_failure_no_abort (net : String → HttpResult)
    (pages : List FetchResult) (st : BingState)
    (h : ∀ fr ∈ pages, fr ≠ FetchResult.failure) :
    (Bing.run net pages st).2 = false := by
  have h2 := runLoop_no_failure_no_abort net pages st h
  unfold Bing.run
  rcases hrl : Bing.runLoop net pages st with ⟨st', b⟩
  rw [hrl] at h2
  simp at h2
  subst h2
  rfl

/-- C5: a failing single-image attempt (non-200 status, transport error or
timeout, or a 200 body matching no known image signature) nets the shared
counter back to its pre-attempt value, writes no file, logs the URL with a
reason, and never propagates an exception out of the loop (a run over pages
none of which raises never aborts, whatever the image outcomes are). -/
theorem c5_failed_attempt_rolls_back (net : String → HttpResult)
    (st : BingState) (link : String)
    (h : attemptFails (net link) = true) :
    (processBurst net [link] st).download_count = st.download_count
    ∧ (processBurst net [link] st).files = st.files
    ∧ Eff.print (issueMsg link (errText link (net link))) ∈ (processBurst net [link] st).effs
    ∧ ∀ (pages : List FetchResult) (st0 : BingState),
        (∀ fr ∈ pages, fr ≠ FetchResult.failure) →
        (Bing.run net pages st0).2 = false := by
  refine ⟨?_, ?_, ?_, fun pages st0 hp => run_no_failure_no_abort net pages st0 hp⟩ <;>
  · unfold processBurst assignTasks assignTasks settleAll settleAll settle
    cases hr : net link with
    | ok body =>
      have hnone : (imghdr_what body).isNone = true := by
        rw [attemptFails.eq_def, hr] at h; exact h
      simp [pushEff, hr, Option.isNone_iff_eq_none.mp hnone, issueMsg, errText]
    | status c => simp [pushEff, hr, issueMsg, errText]
    | netError => simp [pushEff, hr, issueMsg, errText]

/-- C5 witness: the theorem at a concrete failing attempt (HTTP 404). -/
theorem c5_failed_attempt_rolls_back_witness :
    (processBurst (fun _ => HttpResult.status 404) ["http://x/a.png"]
        (Bing.init "dog" 5 "dir" (PyVal.bool false) 60 none true)).download_count =
      (Bing.init "dog" 5 "dir" (PyVal.bool false) 60 none true).download_count := by
  have h := c5_failed_attempt_rolls_back (fun _ => HttpResult.status 404)
    (Bing.init "dog" 5 "dir" (PyVal.bool false) 60 none true) "http://x/a.png" (by decide)
  exact h.1

/-- `assignTasks` yields one task per eligible link. -/
theorem assignTasks_length (es : List String) : ∀ c, (assignTasks c es).length = es.length := by
  induction es with
  | nil => intro c; rfl
  | cons l ls ih => intro c; simp [assignTasks, ih]

/-- The `i`-th launched task holds the `i`-th eligible link and the counter
value `pre + i + 1` it observed right after its own optimistic increment. -/
theorem assignTasks_get (es : List String) :
    ∀ (c i : Nat) (hi : i < (assignTasks c es).length) (hi' : i < es.length),
      (assignTasks c es).get ⟨i, hi⟩ = ⟨es.get ⟨i, hi'⟩, c + i + 1⟩ := by
  induction es with
  | nil => intro c i _ hi'; exact absurd hi' (by simp)
  | cons l ls ih =>
    intro c i hi hi'
    cases i with
    | zero => rfl
    | succ j =>
      have hj : j < (assignTasks (c + 1) ls).length := by
        simpa [assignTasks] using hi
      have hj' : j < ls.length := by simpa using hi'
      have := ih (c + 1) j hj hj'
      simp only [assignTasks, List.get_cons_succ, this]
      congr 1
      omega

/-- A write to an existing name silently overwrites: reading that name back
returns the newly written bytes. -/
theorem lookupFile_overwrite (fs : List FileRec) (r : FileRec) :
    lookupFile (fs ++ [r]) r.name = some r.bytes := by
  unfold lookupFile
  rw [List.filter_append]
  simp [List.filter]

/-- C9: every download attempt increments the shared counter before its
network request — `processBurst` is, definitionally, the counter bumped by
all launches and the tasks settled afterwards — and the `i`-th attempt's
target carries the post-increment value `pre + i + 1` (1-based and
sequential); a successful settlement writes exactly the file named from that
value, and writing over an existing name silently replaces its bytes. -/
theorem c9_sequential_names_and_overwrite (net : String → HttpResult)
    (st : BingState) (es : List String) (pre i : Nat)
    (hi : i < (assignTasks pre es).length) (hi' : i < es.length)
    (link : String) (n : Nat) (body : Bytes)
    (hok : net link = HttpResult.ok body)
    (hvalid : (imghdr_what body).isSome = true)
    (fs : List FileRec) (r : FileRec) :
    processBurst net es st =
      settleAll net (assignTasks st.download_count es)
        { st with
          download_count := st.download_count + es.length
          attempted := st.attempted ++ es }
    ∧ ((assignTasks pre es).get ⟨i, hi⟩).num = pre + i + 1
    ∧ ((assignTasks pre es).get ⟨i, hi⟩).link = es.get ⟨i, hi'⟩
    ∧ (settle net st ⟨link, n⟩).files =
        st.files ++ [⟨n, Bing.file_type link, body⟩]
    ∧ Eff.writeFile (imageName n (Bing.file_type link)) ∈ (settle net st ⟨link, n⟩).effs
    ∧ lookupFile (fs ++ [r]) r.name = some r.bytes := by
  refine ⟨rfl, ?_, ?_, ?_, ?_, lookupFile_overwrite fs r⟩
  · rw [assignTasks_get es pre i hi hi']
  · rw [assignTasks_get es pre i hi hi']
  · unfold settle
    simp [hok, hvalid, pushEff]
  · unfold settle
    simp [hok, hvalid, pushEff]

/-- C9 witness: the theorem at a concrete successful attempt. -/
theorem c9_sequential_names_and_overwrite_witness :
    ((assignTasks 0 ["http://x/a.png", "http://x/b.png"]).get ⟨0, by decide⟩).num =
      0 + 0 + 1 := by
  have h := c9_sequential_names_and_overwrite netOk
    (Bing.init "dog" 5 "dir" (PyVal.bool false) 60 none true)
    ["http://x/a.png", "http://x/b.png"] 0 0 (by decide) (by decide)
    "http://x/a.png" 1 png8 rfl (by decide) [] ⟨1, "png", png8⟩
  exact h.2.1

/-! ## Decimal rendering facts, and injectivity of the `Image_<n>.<ext>` names -/

/-- `Char.ofNat` on a decimal digit code point evaluates to that code point. -/
theorem char_ofNat_digit_toNat (k : Nat) (hk : k < 10) :
    (Char.ofNat (48 + k)).toNat = 48 + k := by
  interval_cases k <;> rfl

/-- A decimal digit character is not a dot. -/
theorem char_ofNat_digit_ne_dot (k : Nat) (hk : k < 10) :
    Char.ofNat (48 + k) ≠ '.' := by
  interval_cases k <;> decide

/-- `natDecCore` produces no dot. -/
theorem natDecCore_ne_dot : ∀ (fuel n : Nat), ∀ c ∈ natDecCore fuel n, c ≠ '.' := by
  intro fuel
  induction fuel with
  | zero => intro n c hc; simp [natDecCore] at hc
  | succ f ih =>
    intro n c hc
    by_cases h0 : n = 0
    · simp [natDecCore, h0] at hc
    · simp only [natDecCore, h0, if_false, List.mem_append, List.mem_singleton] at hc
      rcases hc with hc | hc
      · exact ih _ c hc
      · subst hc
        exact char_ofNat_digit_ne_dot (n % 10) (Nat.mod_lt _ (by omega))

/-- The decimal rendering of `n` contains no dot. -/
theorem natDecimalChars_ne_dot (n : Nat) : ∀ c ∈ natDecimalChars n, c ≠ '.' := by
  intro c hc
  unfold natDecimalChars at hc
  by_cases h0 : n = 0
  · simp [h0] at hc
    subst hc; decide
  · simp only [h0, if_false] at hc
    exact natDecCore_ne_dot (n + 1) n c hc

/-- Reading the decimal rendering back (with fuel above `n`). -/
theorem parse_natDecCore : ∀ (fuel n : Nat), n < fuel →
    parseDecimal (natDecCore fuel n) = n := by
  intro fuel
  induction fuel with
  | zero => intro n h; omega
  | succ f ih =>
    intro n h
    by_cases h0 : n = 0
    · subst h0; rfl
    · have hlt : n / 10 < n := Nat.div_lt_self (by omega) (by omega)
      have hd : n / 10 < f := by omega
      unfold natDecCore parseDecimal
      simp only [h0, if_false]
      rw [List.foldl_append]
      have hrec := ih (n / 10) hd
      unfold parseDecimal at hrec
      rw [hrec]
      simp only [List.foldl_cons, List.foldl_nil,
        char_ofNat_digit_toNat (n % 10) (Nat.mod_lt _ (by omega))]
      omega

/-- `parseDecimal` is a left inverse of `natDecimalChars`. -/
theorem parse_natDecimalChars (n : Nat) : parseDecimal (natDecimalChars n) = n := by
  unfold natDecimalChars
  by_cases h0 : n = 0
  · subst h0; rfl
  · simp only [h0, if_false]
    exact parse_natDecCore (n + 1) n (by omega)

/-- Two dot-free lists followed by a dot and a tail split uniquely. -/
theorem dot_split_inj : ∀ (d1 d2 e1 e2 : List Char),
    (∀ c ∈ d1, c ≠ '.') → (∀ c ∈ d2, c ≠ '.') →
    d1 ++ '.' :: e1 = d2 ++ '.' :: e2 → d1 = d2 ∧ e1 = e2 := by
  intro d1
  induction d1 with
  | nil =>
    intro d2 e1 e2 _ h2 heq
    cases d2 with
    | nil => simpa using heq
    | cons b bs =>
      simp only [List.nil_append, List.cons_append, List.cons.injEq] at heq
      exact absurd heq.1.symm (h2 b (List.mem_cons_self _ _))
  | cons a as ih =>
    intro d2 e1 e2 h1 h2 heq
    cases d2 with
    | nil =>
      simp only [List.nil_append, List.cons_append, List.cons.injEq] at heq
      exact absurd heq.1 (h1 a (List.mem_cons_self _ _))
    | cons b bs =>
      simp only [List.cons_append, List.cons.injEq] at heq
      obtain ⟨rfl, heq2⟩ := heq
      have hr := ih bs e1 e2 (fun c hc => h1 c (List.mem_cons_of_mem _ hc))
        (fun c hc => h2 c (List.mem_cons_of_mem _ hc)) heq2
      exact ⟨by rw [hr.1], hr.2⟩

/-- Two equal `Image_<n>.<ext>` names carry the same number. -/
theorem imageName_num_inj (n1 n2 : Nat) (e1 e2 : String)
    (h : imageName n1 e1 = imageName n2 e2) : n1 = n2 := by
  have hd : ("Image_".data ++ natDecimalChars n1) ++ '.' :: e1.data =
      ("Image_".data ++ natDecimalChars n2) ++ '.' :: e2.data := by
    simpa [imageName] using congrArg String.data h
  rw [List.append_assoc, List.append_assoc] at hd
  have hd2 := List.append_cancel_left hd
  have hsp := dot_split_inj (natDecimalChars n1) (natDecimalChars n2) e1.data e2.data
    (natDecimalChars_ne_dot n1) (natDecimalChars_ne_dot n2) hd2
  have hparse := congrArg parseDecimal hsp.1
  rwa [parse_natDecimalChars, parse_natDecimalChars] at hparse

/-! ## The all-success burst (C10) -/

/-- The body bytes of an HTTP result (empty for a failed request). -/
def bodyOf : HttpResult → Bytes
  | .ok b => b
  | .status _ => []
  | .netError => []

/-- The file a successfully settled task writes. -/
def taskFile (net : String → HttpResult) (t : DTask) : FileRec :=
  ⟨t.num, Bing.file_type t.link, bodyOf (net t.link)⟩

/-- A successful settlement keeps the counter and appends exactly its file. -/
theorem settle_success (net : String → HttpResult) (st : BingState) (t : DTask)
    (h : attemptFails (net t.link) = false) :
    (settle net st t).download_count = st.download_count
    ∧ (settle net st t).files = st.files ++ [taskFile net t] := by
  cases hr : net t.link with
  | ok body =>
    have hsome : (imghdr_what body).isSome = true := by
      rw [attemptFails.eq_def, hr] at h
      simpa [Option.isNone_iff_eq_none, Option.isSome_iff_exists,
        Option.ne_none_iff_exists'] using h
    unfold settle
    simp [hr, hsome, pushEff, taskFile, bodyOf]
  | status c => rw [attemptFails.eq_def, hr] at h; cases h
  | netError => rw [attemptFails.eq_def, hr] at h; cases h

/-- Settling an all-successful burst keeps the counter and appends the files
of all tasks, in order. -/
theorem settleAll_success (net : String → HttpResult) :
    ∀ (ts : List DTask) (st : BingState),
      (∀ t ∈ ts, attemptFails (net t.link) = false) →
      (settleAll net ts st).download_count = st.download_count
      ∧ (settleAll net ts st).files = st.files ++ ts.map (taskFile net) := by
  intro ts
  induction ts with
  | nil => intro st _; simp [settleAll]
  | cons t ts ih =>
    intro st hall
    have ht := settle_success net st t (hall t (List.mem_cons_self _ _))
    have hrest := ih (settle net st t) (fun u hu => hall u (List.mem_cons_of_mem _ hu))
    refine ⟨?_, ?_⟩
    · rw [settleAll, hrest.1, ht.1]
    · rw [settleAll, hrest.2, ht.2]
      simp

/-- Every launched task's link is one of the eligible links. -/
theorem assignTasks_link_mem (es : List String) :
    ∀ (c : Nat) (t : DTask), t ∈ assignTasks c es → t.link ∈ es := by
  induction es with
  | nil => intro c t ht; simp [assignTasks] at ht
  | cons l ls ih =>
    intro c t ht
    rcases List.mem_cons.mp ht with h | h
    · subst h; exact List.mem_cons_self _ _
    · exact List.mem_cons_of_mem _ (ih (c + 1) t h)

/-- The launched numbers are consecutive, starting right above the pre-burst
counter value. -/
theorem assignTasks_map_num (es : List String) :
    ∀ c, (assignTasks c es).map DTask.num = List.range' (c + 1) es.length := by
  induction es with
  | nil => intro c; rfl
  | cons l ls ih =>
    intro c
    rw [assignTasks, List.map_cons, ih (c + 1), List.length_cons, List.range'_succ]

/-- C10: when all eligible downloads of a burst succeed, the barrier settles
every one of them: the counter advances by exactly the burst size, the files
of all N tasks are appended in order, their numbers are the consecutive run
`pre+1, …, pre+N` (no gaps), and their rendered `Image_<n>.<ext>` names are
pairwise distinct (no collisions) — for every N, in particular N = 100. -/
theorem c10_all_success_burst (net : String → HttpResult) (st : BingState)
    (es : List String)
    (hall : ∀ l ∈ es, attemptFails (net l) = false) :
    (processBurst net es st).download_count = st.download_count + es.length
    ∧ (processBurst net es st).files =
        st.files ++ (assignTasks st.download_count es).map (taskFile net)
    ∧ (processBurst net es st).files.map FileRec.num =
        st.files.map FileRec.num ++ List.range' (st.download_count + 1) es.length
    ∧ (((assignTasks st.download_count es).map (taskFile net)).map FileRec.name).Nodup := by
  have htasks : ∀ t ∈ assignTasks st.download_count es,
      attemptFails (net t.link) = false :=
    fun t ht => hall t.link (assignTasks_link_mem es _ t ht)
  have hs := settleAll_success net (assignTasks st.download_count es)
    { st with
      download_count := st.download_count + es.length
      attempted := st.attempted ++ es } htasks
  have hnum : ((assignTasks st.download_count es).map (taskFile net)).map FileRec.num =
      List.range' (st.download_count + 1) es.length := by
    rw [List.map_map]
    exact assignTasks_map_num es st.download_count
  refine ⟨?_, ?_, ?_, ?_⟩
  · rw [processBurst, hs.1]
  · rw [processBurst, hs.2]
  · rw [processBurst, hs.2]
    rw [List.map_append, hnum]
  · have hpw : ((assignTasks st.download_count es).map (taskFile net)).Pairwise
        (fun f g => f.num < g.num) := by
      rw [← List.pairwise_map (f := FileRec.num) (R := (· < ·)), hnum]
      exact List.pairwise_lt_range' _ _
    rw [List.Nodup, List.pairwise_map]
    exact hpw.imp (fun {f g} hlt heq => by
      have := imageName_num_inj f.num g.num f.ext g.ext heq
      omega)

/-- C10 witness: the theorem at a concrete burst of 100 links that all
succeed. -/
theorem c10_all_success_burst_witness :
    (processBurst netOk ((List.range 100).map (fun k => "http://x/i" ++ natDecimalStr k ++ ".png"))
        (Bing.init "dog" 200 "dir" (PyVal.bool false) 60 none true)).download_count =
      (Bing.init "dog" 200 "dir" (PyVal.bool false) 60 none true).download_count +
        ((List.range 100).map (fun k => "http://x/i" ++ natDecimalStr k ++ ".png")).length := by
  have h := c10_all_success_burst netOk
    (Bing.init "dog" 200 "dir" (PyVal.bool false) 60 none true)
    ((List.range 100).map (fun k => "http://x/i" ++ natDecimalStr k ++ ".png"))
    (fun l _ => rfl)
  exact h.1

/-! ## Frame lemmas: which state fields each operation can touch -/

@[simp] theorem pushEff_attempted (st : BingState) (e : Eff) :
    (pushEff st e).attempted = st.attempted := rfl

@[simp] theorem pushEff_seen (st : BingState) (e : Eff) :
    (pushEff st e).seen = st.seen := rfl

@[simp] theorem pushEff_download_count (st : BingState) (e : Eff) :
    (pushEff st e).download_count = st.download_count := rfl

@[simp] theorem pushEff_limit (st : BingState) (e : Eff) :
    (pushEff st e).limit = st.limit := rfl

@[simp] theorem pushEff_query (st : BingState) (e : Eff) :
    (pushEff st e).query = st.query := rfl

@[simp] theorem pushEff_adult (st : BingState) (e : Eff) :
    (pushEff st e).adult = st.adult := rfl

@[simp] theorem pushEff_filter (st : BingState) (e : Eff) :
    (pushEff st e).filter = st.filter := rfl

@[simp] theorem pushEff_page_counter (st : BingState) (e : Eff) :
    (pushEff st e).page_counter = st.page_counter := rfl

@[simp] theorem pushEff_verbose (st : BingState) (e : Eff) :
    (pushEff st e).verbose = st.verbose := rfl

@[simp] theorem pushEff_effs (st : BingState) (e : Eff) :
    (pushEff st e).effs = st.effs ++ [e] := rfl

@[simp] theorem prePage_attempted (st : BingState) :
    (prePage st).attempted = st.attempted := by
  unfold prePage; split <;> rfl

@[simp] theorem prePage_seen (st : BingState) : (prePage st).seen = st.seen := by
  unfold prePage; split <;> rfl

@[simp] theorem prePage_download_count (st : BingState) :
    (prePage st).download_count = st.download_count := by
  unfold prePage; split <;> rfl

@[simp] theorem prePage_limit (st : BingState) : (prePage st).limit = st.limit := by
  unfold prePage; split <;> rfl

@[simp] theorem prePage_query (st : BingState) : (prePage st).query = st.query := by
  unfold prePage; split <;> rfl

@[simp] theorem prePage_adult (st : BingState) : (prePage st).adult = st.adult := by
  unfold prePage; split <;> rfl

@[simp] theorem prePage_filter (st : BingState) : (prePage st).filter = st.filter := by
  unfold prePage; split <;> rfl

@[simp] theorem prePage_page_counter (st : BingState) :
    (prePage st).page_counter = st.page_counter := by
  unfold prePage; split <;> rfl

@[simp] theorem prePage_verbose (st : BingState) :
    (prePage st).verbose = st.verbose := by
  unfold prePage; split <;> rfl

@[simp] theorem settle_attempted (net : String → HttpResult) (st : BingState)
    (t : DTask) : (settle net st t).attempted = st.attempted := by
  unfold settle pushEff
  cases net t.link <;> simp <;> split <;> rfl

@[simp] theorem settle_seen (net : String → HttpResult) (st : BingState)
    (t : DTask) : (settle net st t).seen = st.seen := by
  unfold settle pushEff
  cases net t.link <;> simp <;> split <;> rfl

@[simp] theorem settle_limit (net : String → HttpResult) (st : BingState)
    (t : DTask) : (settle net st t).limit = st.limit := by
  unfold settle pushEff
  cases net t.link <;> simp <;> split <;> rfl

@[simp] theorem settle_query (net : String → HttpResult) (st : BingState)
    (t : DTask) : (settle net st t).query = st.query := by
  unfold settle pushEff
  cases net t.link <;> simp <;> split <;> rfl

@[simp] theorem settle_adult (net : String → HttpResult) (st : BingState)
    (t : DTask) : (settle net st t).adult = st.adult := by
  unfold settle pushEff
  cases net t.link <;> simp <;> split <;> rfl

@[simp] theorem settle_filter (net : String → HttpResult) (st : BingState)
    (t : DTask) : (settle net st t).filter = st.filter := by
  unfold settle pushEff
  cases net t.link <;> simp <;> split <;> rfl

@[simp] theorem settle_page_counter (net : String → HttpResult) (st : BingState)
    (t : DTask) : (settle net st t).page_counter = st.page_counter := by
  unfold settle pushEff
  cases net t.link <;> simp <;> split <;> rfl

@[simp] theorem settle_verbose (net : String → HttpResult) (st : BingState)
    (t : DTask) : (settle net st t).verbose = st.verbose := by
  unfold settle pushEff
  cases net t.link <;> simp <;> split <;> rfl

@[simp] theorem settleAll_attempted (net : String → HttpResult) :
    ∀ (ts : List DTask) (st : BingState),
      (settleAll net ts st).attempted = st.attempted := by
  intro ts
  induction ts with
  | nil => intro st; rfl
  | cons t ts ih => intro st; rw [settleAll, ih, settle_attempted]

@[simp] theorem settleAll_seen (net : String → HttpResult) :
    ∀ (ts : List DTask) (st : BingState), (settleAll net ts st).seen = st.seen := by
  intro ts
  induction ts with
  | nil => intro st; rfl
  | cons t ts ih => intro st; rw [settleAll, ih, settle_seen]

@[simp] theorem settleAll_limit (net : String → HttpResult) :
    ∀ (ts : List DTask) (st : BingState), (settleAll net ts st).limit = st.limit := by
  intro ts
  induction ts with
  | nil => intro st; rfl
  | cons t ts ih => intro st; rw [settleAll, ih, settle_limit]

@[simp] theorem settleAll_query (net : String → HttpResult) :
    ∀ (ts : List DTask) (st : BingState), (settleAll net ts st).query = st.query := by
  intro ts
  induction ts with
  | nil => intro st; rfl
  | cons t ts ih => intro st; rw [settleAll, ih, settle_query]

@[simp] theorem settleAll_adult (net : String → HttpResult) :
    ∀ (ts : List DTask) (st : BingState), (settleAll net ts st).adult = st.adult := by
  intro ts
  induction ts with
  | nil => intro st; rfl
  | cons t ts ih => intro st; rw [settleAll, ih, settle_adult]

@[simp] theorem settleAll_filter (net : String → HttpResult) :
    ∀ (ts : List DTask) (st : BingState), (settleAll net ts st).filter = st.filter := by
  intro ts
  induction ts with
  | nil => intro st; rfl
  | cons t ts ih => intro st; rw [settleAll, ih, settle_filter]

@[simp] theorem settleAll_page_counter (net : String → HttpResult) :
    ∀ (ts : List DTask) (st : BingState),
      (settleAll net ts st).page_counter = st.page_counter := by
  intro ts
  induction ts with
  | nil => intro st; rfl
  | cons t ts ih => intro st; rw [settleAll, ih, settle_page_counter]

@[simp] theorem settleAll_verbose (net : String → HttpResult) :
    ∀ (ts : List DTask) (st : BingState),
      (settleAll net ts st).verbose = st.verbose := by
  intro ts
  induction ts with
  | nil => intro st; rfl
  | cons t ts ih => intro st; rw [settleAll, ih, settle_verbose]

@[simp] theorem processBurst_attempted (net : String → HttpResult)
    (es : List String) (st : BingState) :
    (processBurst net es st).attempted = st.attempted ++ es := by
  rw [processBurst, settleAll_attempted]

@[simp] theorem processBurst_seen (net : String → HttpResult)
    (es : List String) (st : BingState) :
    (processBurst net es st).seen = st.seen := by
  rw [processBurst, settleAll_seen]

@[simp] theorem processBurst_limit (net : String → HttpResult)
    (es : List String) (st : BingState) :
    (processBurst net es st).limit = st.limit := by
  rw [processBurst, settleAll_limit]

@[simp] theorem processBurst_query (net : String → HttpResult)
    (es : List String) (st : BingState) :
    (processBurst net es st).query = st.query := by
  rw [processBurst, settleAll_query]

@[simp] theorem processBurst_adult (net : String → HttpResult)
    (es : List String) (st : BingState) :
    (processBurst net es st).adult = st.adult := by
  rw [processBurst, settleAll_adult]

@[simp] theorem processBurst_filter (net : String → HttpResult)
    (es : List String) (st : BingState) :
    (processBurst net es st).filter = st.filter := by
  rw [processBurst, settleAll_filter]

@[simp] theorem processBurst_verbose (net : String → HttpResult)
    (es : List String) (st : BingState) :
    (processBurst net es st).verbose = st.verbose := by
  rw [processBurst, settleAll_verbose]

/-! ## C3: deduplication across pages -/

/-- An eligible link is an unseen extracted link. -/
theorem mem_eligibleLinks {links : List String} {c L : Nat} {seen : List String}
    {u : String} (h : u ∈ eligibleLinks links c L seen) : u ∈ links ∧ u ∉ seen := by
  rcases List.mem_filter.mp h with ⟨h1, h2⟩
  exact ⟨h1, (of_decide_eq_true h2).2⟩

@[simp] theorem stepPage_attempted (net : String → HttpResult) (html : String)
    (st : BingState) :
    (stepPage net html st).attempted =
      st.attempted ++
        eligibleLinks (extractLinks html) st.download_count st.limit st.seen := by
  unfold stepPage
  cases hv : st.verbose <;> simp [hv]

@[simp] theorem stepPage_seen (net : String → HttpResult) (html : String)
    (st : BingState) :
    (stepPage net html st).seen = st.seen ++ extractLinks html := by
  unfold stepPage
  cases hv : st.verbose <;> simp [hv]

/-- Loop invariant: the list of links ever handed to `download_image` stays
duplicate-free (assuming each page's own extraction is duplicate-free) and
stays inside the seen set — every page's candidates enter `seen` before the
next page is processed, and the filter excludes the seen. -/
theorem runLoop_dedup (net : String → HttpResult) :
    ∀ (pages : List FetchResult) (st : BingState),
      (∀ html, FetchResult.page html ∈ pages → (extractLinks html).Nodup) →
      st.attempted.Nodup → (∀ u ∈ st.attempted, u ∈ st.seen) →
      (Bing.runLoop net pages st).1.attempted.Nodup
      ∧ ∀ u ∈ (Bing.runLoop net pages st).1.attempted,
          u ∈ (Bing.runLoop net pages st).1.seen := by
  intro pages
  induction pages with
  | nil =>
    intro st _ h1 h2
    simp only [Bing.runLoop]
    split
    · exact ⟨by simpa using h1, by simpa using h2⟩
    · exact ⟨h1, h2⟩
  | cons fr rest ih =>
    intro st hnd h1 h2
    by_cases hcl : st.download_count < st.limit
    · cases fr with
      | failure =>
        simp only [Bing.runLoop, if_pos hcl]
        exact ⟨by simpa using h1, by simpa using h2⟩
      | page html =>
        by_cases hh : html = ""
        · subst hh
          simp only [Bing.runLoop, if_pos hcl, if_pos rfl]
          exact ⟨by simpa using h1, by simpa using h2⟩
        · simp only [Bing.runLoop, if_pos hcl, if_neg hh]
          apply ih
          · intro html2 hm
            exact hnd html2 (List.mem_cons_of_mem _ hm)
          · show ((stepPage net html (prePage st)).attempted).Nodup
            rw [stepPage_attempted, prePage_attempted, prePage_download_count,
              prePage_limit, prePage_seen]
            have hlnd : (extractLinks html).Nodup :=
              hnd html (List.mem_cons_self _ _)
            refine List.Nodup.append h1 (hlnd.filter _) ?_
            intro u hu hu'
            exact (mem_eligibleLinks hu').2 (h2 u hu)
          · show ∀ u ∈ (stepPage net html (prePage st)).attempted,
              u ∈ (stepPage net html (prePage st)).seen
            rw [stepPage_attempted, stepPage_seen, prePage_attempted,
              prePage_download_count, prePage_limit, prePage_seen]
            intro u hu
            rcases List.mem_append.mp hu with hu | hu
            · exact List.mem_append.mpr (.inl (h2 u hu))
            · exact List.mem_append.mpr (.inr (mem_eligibleLinks hu).1)
    · simp only [Bing.runLoop, if_neg hcl]
      exact ⟨h1, h2⟩

/-- The summary wrapper does not change the attempted list. -/
theorem run_attempted (net : String → HttpResult) (pages : List FetchResult)
    (st : BingState) :
    (Bing.run net pages st).1.attempted = (Bing.runLoop net pages st).1.attempted := by
  unfold Bing.run
  rcases hrl : Bing.runLoop net pages st with ⟨st', b⟩
  cases b <;> simp

/-- C3: in any run starting from a fresh `Bing` session over pages whose own
extractions are duplicate-free, every URL is passed to `download_image` at
most once — each page's candidates (selected or not) enter the seen set
before the next page, and the eligibility filter excludes seen candidates, so
a URL extracted on two pages is attempted at most once. -/
theorem c3_url_attempted_at_most_once (net : String → HttpResult)
    (pages : List FetchResult) (q : String) (L : Nat) (d : String) (v : PyVal)
    (t : Nat) (f : Option String) (vb : Bool)
    (hnd : ∀ html, FetchResult.page html ∈ pages → (extractLinks html).Nodup) :
    (Bing.run net pages (Bing.init q L d v t f vb)).1.attempted.Nodup
    ∧ ∀ u, (Bing.run net pages (Bing.init q L d v t f vb)).1.attempted.count u ≤ 1 := by
  have h := runLoop_dedup net pages (Bing.init q L d v t f vb) hnd (by simp [Bing.init])
    (by simp [Bing.init])
  rw [run_attempted]
  exact ⟨h.1, fun u => List.nodup_iff_count_le_one.mp h.1 u⟩

/-- C3 witness: two concrete pages sharing the URL `http://x/b.png`. -/
theorem c3_url_attempted_at_most_once_witness :
    (Bing.run netOk
        [FetchResult.page (mkMurl "http://x/a.png" ++ mkMurl "http://x/b.png"),
         FetchResult.page (mkMurl "http://x/b.png" ++ mkMurl "http://x/c.png")]
        (Bing.init "dog" 5 "dir" (PyVal.bool false) 60 none true)).1.attempted.Nodup := by
  have h := c3_url_attempted_at_most_once netOk
    [FetchResult.page (mkMurl "http://x/a.png" ++ mkMurl "http://x/b.png"),
     FetchResult.page (mkMurl "http://x/b.png" ++ mkMurl "http://x/c.png")]
    "dog" 5 "dir" (PyVal.bool false) 60 none true (by
      intro html hm
      simp only [List.mem_cons, List.not_mem_nil, or_false,
        FetchResult.page.injEq] at hm
      rcases hm with rfl | rfl <;> decide)
  exact h.1

/-! ## C7: the `adlt` parameter of every request URL -/

/-- The page URL carried by a fetch effect. -/
def effPageUrl : Eff → Option String
  | .fetchPage u => some u
  | _ => none

/-- All search-page URLs requested so far. -/
def pageUrls (effs : List Eff) : List String :=
  effs.filterMap effPageUrl

@[simp] theorem pageUrls_append (a b : List Eff) :
    pageUrls (a ++ b) = pageUrls a ++ pageUrls b := by
  simp [pageUrls]

@[simp] theorem settle_pageUrls (net : String → HttpResult) (st : BingState)
    (t : DTask) : pageUrls (settle net st t).effs = pageUrls st.effs := by
  unfold settle pushEff
  cases net t.link <;> simp [pageUrls, effPageUrl] <;> split <;>
    simp [pageUrls, effPageUrl]

@[simp] theorem settleAll_pageUrls (net : String → HttpResult) :
    ∀ (ts : List DTask) (st : BingState),
      pageUrls (settleAll net ts st).effs = pageUrls st.effs := by
  intro ts
  induction ts with
  | nil => intro st; rfl
  | cons t ts ih => intro st; rw [settleAll, ih, settle_pageUrls]

@[simp] theorem processBurst_pageUrls (net : String → HttpResult)
    (es : List String) (st : BingState) :
    pageUrls (processBurst net es st).effs = pageUrls st.effs := by
  rw [processBurst, settleAll_pageUrls]

@[simp] theorem stepPage_pageUrls (net : String → HttpResult) (html : String)
    (st : BingState) :
    pageUrls (stepPage net html st).effs = pageUrls st.effs := by
  unfold stepPage
  cases hv : st.verbose <;> simp [hv] <;> simp [pageUrls, effPageUrl]

@[simp] theorem stepPage_query (net : String → HttpResult) (html : String)
    (st : BingState) : (stepPage net html st).query = st.query := by
  unfold stepPage
  cases hv : st.verbose <;> simp [hv]

@[simp] theorem stepPage_limit (net : String → HttpResult) (html : String)
    (st : BingState) : (stepPage net html st).limit = st.limit := by
  unfold stepPage
  cases hv : st.verbose <;> simp [hv]

@[simp] theorem stepPage_adult (net : String → HttpResult) (html : String)
    (st : BingState) : (stepPage net html st).adult = st.adult := by
  unfold stepPage
  cases hv : st.verbose <;> simp [hv]

@[simp] theorem stepPage_filter (net : String → HttpResult) (html : String)
    (st : BingState) : (stepPage net html st).filter = st.filter := by
  unfold stepPage
  cases hv : st.verbose <;> simp [hv]

@[simp] theorem prePage_pageUrls (st : BingState) :
    pageUrls (prePage st).effs =
      pageUrls st.effs ++
        [buildRequestURL st.query st.page_counter st.limit st.adult st.filter] := by
  unfold prePage pushEff
  cases hv : st.verbose <;> simp [hv, pageUrls, effPageUrl]


/-! ## Reduction equations for `Bing.runLoop` -/

theorem runLoop_nil_lt (net : String → HttpResult) (st : BingState)
    (hcl : st.download_count < st.limit) :
    Bing.runLoop net [] st =
      (pushEff (prePage st) (.print "[%] No more images are available"), false) := by
  unfold Bing.runLoop
  rw [if_pos hcl]

theorem runLoop_failure_lt (net : String → HttpResult) (rest : List FetchResult)
    (st : BingState) (hcl : st.download_count < st.limit) :
    Bing.runLoop net (FetchResult.failure :: rest) st = (prePage st, true) := by
  unfold Bing.runLoop
  rw [if_pos hcl]

theorem runLoop_empty_page_lt (net : String → HttpResult) (rest : List FetchResult)
    (st : BingState) (hcl : st.download_count < st.limit) :
    Bing.runLoop net (FetchResult.page "" :: rest) st =
      (pushEff (prePage st) (.print "[%] No more images are available"), false) := by
  unfold Bing.runLoop
  rw [if_pos hcl]
  rfl

theorem runLoop_page_lt (net : String → HttpResult) (rest : List FetchResult)
    (st : BingState) (html : String) (hcl : st.download_count < st.limit)
    (hh : html ≠ "") :
    Bing.runLoop net (FetchResult.page html :: rest) st =
      Bing.runLoop net rest
        { stepPage net html (prePage st) with
          page_counter := (stepPage net html (prePage st)).page_counter + 1 } := by
  conv_lhs => rw [Bing.runLoop.eq_def]
  dsimp only
  rw [if_pos hcl]
  show (if html = "" then _ else _) = _
  rw [if_neg hh]

theorem runLoop_not_lt (net : String → HttpResult) (pages : List FetchResult)
    (st : BingState) (hcl : ¬ st.download_count < st.limit) :
    Bing.runLoop net pages st = (st, false) := by
  cases pages with
  | nil => unfold Bing.runLoop; rw [if_neg hcl]
  | cons fr rest => unfold Bing.runLoop; rw [if_neg hcl]

/-- Loop invariant: every page URL requested by the loop is a
`buildRequestURL` instance over the session's (never mutated) query, limit,
adult flag and filter. -/
theorem runLoop_urls (net : String → HttpResult) (q : String) (L : Nat)
    (a : String) (f : Option String) :
    ∀ (pages : List FetchResult) (st : BingState),
      st.query = q → st.limit = L → st.adult = a → st.filter = f →
      (∀ u ∈ pageUrls st.effs, ∃ p, u = buildRequestURL q p L a f) →
      ∀ u ∈ pageUrls (Bing.runLoop net pages st).1.effs,
        ∃ p, u = buildRequestURL q p L a f := by
  intro pages
  induction pages with
  | nil =>
    intro st hq hL ha hf hall
    by_cases hcl : st.download_count < st.limit
    · rw [runLoop_nil_lt net st hcl]
      intro u hu
      simp only [pushEff_effs, pageUrls_append, prePage_pageUrls, hq, hL, ha, hf,
        List.mem_append] at hu
      rcases hu with (hu | hu) | hu
      · exact hall u hu
      · rcases List.mem_singleton.mp hu with rfl
        exact ⟨st.page_counter, rfl⟩
      · simp [pageUrls, effPageUrl] at hu
    · rw [runLoop_not_lt net [] st hcl]
      exact hall
  | cons fr rest ih =>
    intro st hq hL ha hf hall
    by_cases hcl : st.download_count < st.limit
    · cases fr with
      | failure =>
        rw [runLoop_failure_lt net rest st hcl]
        intro u hu
        simp only [prePage_pageUrls, hq, hL, ha, hf, List.mem_append] at hu
        rcases hu with hu | hu
        · exact hall u hu
        · rcases List.mem_singleton.mp hu with rfl
          exact ⟨st.page_counter, rfl⟩
      | page html =>
        by_cases hh : html = ""
        · subst hh
          rw [runLoop_empty_page_lt net rest st hcl]
          intro u hu
          simp only [pushEff_effs, pageUrls_append, prePage_pageUrls, hq, hL, ha, hf,
            List.mem_append] at hu
          rcases hu with (hu | hu) | hu
          · exact hall u hu
          · rcases List.mem_singleton.mp hu with rfl
            exact ⟨st.page_counter, rfl⟩
          · simp [pageUrls, effPageUrl] at hu
        · rw [runLoop_page_lt net rest st html hcl hh]
          apply ih
          · show (stepPage net html (prePage st)).query = q
            simp [hq]
          · show (stepPage net html (prePage st)).limit = L
            simp [hL]
          · show (stepPage net html (prePage st)).adult = a
            simp [ha]
          · show (stepPage net html (prePage st)).filter = f
            simp [hf]
          · show ∀ u ∈ pageUrls (stepPage net html (prePage st)).effs, _
            intro u hu
            simp only [stepPage_pageUrls, prePage_pageUrls, hq, hL, ha, hf,
              List.mem_append] at hu
            rcases hu with hu | hu
            · exact hall u hu
            · rcases List.mem_singleton.mp hu with rfl
              exact ⟨st.page_counter, rfl⟩
    · rw [runLoop_not_lt net _ st hcl]
      exact hall

/-- The summary wrapper requests no further page. -/
theorem run_pageUrls (net : String → HttpResult) (pages : List FetchResult)
    (st : BingState) :
    pageUrls (Bing.run net pages st).1.effs =
      pageUrls (Bing.runLoop net pages st).1.effs := by
  unfold Bing.run
  rcases hrl : Bing.runLoop net pages st with ⟨st', b⟩
  cases b with
  | false => simp [pushEff, pageUrls, effPageUrl]
  | true => rfl

/-- C7: on every call path through `downloader.download`, the `Bing` session
is built with `allow_adult_content` bound to the *string* `"off"` or `"on"`
(both truthy), so `adult` is always `"on"`, and every request URL the run
would build carries `adlt=on`, whatever `adult_filter_off` was. -/
theorem c7_adlt_always_on (q : String) (L : Nat) (od : String) (afo : Bool)
    (t : Nat) (f : String) (vb : Bool) (net : String → HttpResult)
    (pages : List FetchResult) (u : String)
    (hu : u ∈ pageUrls ((Bing.run net pages
        (Bing.init q L (od ++ "/" ++ q) (.str (if afo then "off" else "on")) t
          (some f) vb)).1.effs)) :
    (Bing.init q L (od ++ "/" ++ q) (.str (if afo then "off" else "on")) t
        (some f) vb).adult = "on"
    ∧ ∃ p, u = buildRequestURL q p L "on" (some f) := by
  have hadult : (Bing.init q L (od ++ "/" ++ q)
      (.str (if afo then "off" else "on")) t (some f) vb).adult = "on" := by
    cases afo <;> rfl
  refine ⟨hadult, ?_⟩
  rw [run_pageUrls] at hu
  refine runLoop_urls net q L "on" (some f) pages _ rfl rfl hadult rfl ?_ u hu
  intro u2 hu2
  simp [Bing.init, pageUrls, effPageUrl] at hu2

/-- C7 witness: the theorem at a concrete run (one page request recorded). -/
theorem c7_adlt_always_on_witness :
    (Bing.init "dog" 1 ("dataset" ++ "/" ++ "dog")
        (.str (if true then "off" else "on")) 60 (some "") true).adult = "on" := by
  have h := c7_adlt_always_on "dog" 1 "dataset" true 60 "" true netOk []
    (buildRequestURL "dog" 0 1 "on" (some "")) (by decide)
  exact h.1
